import Mathlib

/-!
Shallow embedding of the Streamlit inventory/price-management system
(`Inventory_System.py`) and proofs about its specified behaviour.

The catalog is a Python dict mapping product names to detail records;
Python dicts preserve insertion order, so a catalog is embedded as an
ordered association list.  The fuzzy similarity metric
(`rapidfuzz.fuzz.token_set_ratio`) is an external library returning a
float in [0, 100]; it is embedded as an abstract score function
`String → String → ℚ`.  File I/O is embedded as a function from paths to
optional file contents, and the external JSON parser as an abstract
partial parse function.
-/

namespace InventorySystem

/-- ASCII-wise lowercasing of a string, the embedding of Python's
`str.lower()` as used by the category pass. -/
def lower (s : String) : String := ⟨s.data.map Char.toLower⟩

/-- ASCII-wise uppercasing of a string, the embedding of Python's
`str.upper()` used to re-case the category name for display. -/
def upper (s : String) : String := ⟨s.data.map Char.toUpper⟩

/-- A product's detail record: the value stored under a product name in
`product_prices.json` (`Inventory_System.py` lines 289-294). -/
structure Product where
  category : String
  purchase_price : Int
  dealer_price : Int
  selling_price : Int
deriving DecidableEq, Repr

/-- The catalog: the dict loaded from `PRODUCTS_FILE`, embedded as an
insertion-ordered association list with the product name as key. -/
abbrev Catalog := List (String × Product)

/-- Python dict lookup `data[k]` / presence test, embedded as the first
entry with the given key (keys of a Python dict are unique). -/
def dictGet (data : Catalog) (k : String) : Option Product :=
  (data.find? (fun kv => kv.1 == k)).map (fun kv => kv.2)

/-- The three possible outcomes of the query flow (spec section 4.1):
all products of a matching category, the single best fuzzy name match
with its rounded-down integer score, or no match. -/
inductive LookupResult where
  | CategoryMatch (category_name : String) (products : List (String × Int × Int))
  | SingleMatch (product_name : String) (score : Int)
      (purchase_price selling_price : Int)
  | NoMatch
deriving DecidableEq, Repr

/-- Stable insertion of a scored candidate in front of the first
candidate with a score not above its own. -/
def insertDesc (x : String × ℚ) : List (String × ℚ) → List (String × ℚ)
  | [] => [x]
  | y :: ys => if y.2 ≤ x.2 then x :: y :: ys else y :: insertDesc x ys

/-- Stable descending sort by score: the embedding of Python's stable
`matches.sort(key=lambda x: x[1], reverse=True)` (line 181).  Earlier
candidates stay in front of later candidates with an equal score. -/
def sortDesc : List (String × ℚ) → List (String × ℚ)
  | [] => []
  | x :: xs => insertDesc x (sortDesc xs)

/-- The fuzzy-pass candidate list (lines 174-178): every product name
paired with its similarity score against the query, keeping those that
reach the threshold of 50. -/
def fuzzyMatches (score : String → String → ℚ) (query_input : String)
    (data : Catalog) : List (String × ℚ) :=
  (data.map (fun kv => (kv.1, score query_input kv.1))).filter
    (fun ns => decide (50 ≤ ns.2))

/-- The lookup engine (lines 158-189): the category pass compares the
query case-insensitively with every product's category and, when it
matches, returns all matching products in catalog order; otherwise the
fuzzy pass sorts the qualifying candidates by descending score and
returns the best one with its truncated integer score, or `NoMatch`
when no candidate reaches 50. -/
def lookup (score : String → String → ℚ) (query_input : String)
    (data : Catalog) : LookupResult :=
  let category_matches :=
    data.filter (fun kv => lower kv.2.category == lower query_input)
  if category_matches.isEmpty then
    match sortDesc (fuzzyMatches score query_input data) with
    | [] => .NoMatch
    | (best_match, s) :: _ =>
      match dictGet data best_match with
      | some product =>
          .SingleMatch best_match s.floor
            product.purchase_price product.selling_price
      | none => .NoMatch
  else
    .CategoryMatch (upper query_input)
      (category_matches.map (fun kv =>
        (kv.1, kv.2.purchase_price, kv.2.selling_price)))

/-- First-encountered candidate carrying the maximal score: the element
a stable descending sort puts at the head. -/
def firstMax : List (String × ℚ) → Option (String × ℚ)
  | [] => none
  | x :: xs =>
    match firstMax xs with
    | none => some x
    | some y => if x.2 < y.2 then some y else some x

/-- JSON values, the shape of data held in the backing files. -/
inductive Json where
  | null
  | bool (b : Bool)
  | num (n : Int)
  | str (s : String)
  | arr (elems : List Json)
  | obj (fields : List (String × Json))

/-- Path of the category store's backing file (line 11). -/
def CATEGORIES_FILE : String := "categories.json"

/-- `load_data` (lines 17-24): read the file at `file_path` and parse it
as JSON, degrading to an empty dict `{}` when the file is missing or its
contents fail to parse.  The file system is embedded as a partial map
from paths to contents and the external JSON parser as a partial parse
function. -/
def load_data (parse : String → Option Json) (fs : String → Option String)
    (file_path : String) : Json :=
  match fs file_path with
  | some contents =>
    match parse contents with
    | some j => j
    | none => Json.obj []
  | none => Json.obj []

/-- Python `dict.get(key, default)` on a parsed JSON object. -/
def jsonGetD (fields : List (String × Json)) (key : String) (dflt : Json) : Json :=
  match fields.find? (fun kv => kv.1 == key) with
  | some kv => kv.2
  | none => dflt

/-- The category-store read (line 121):
`load_data(CATEGORIES_FILE).get("categories", [])`.  Python's `.get`
raises when the parsed value is not a dict, which the embedding records
as `none`; a missing or corrupt file parses to the empty dict and so
yields the empty list. -/
def load_categories (parse : String → Option Json)
    (fs : String → Option String) : Option Json :=
  match load_data parse fs CATEGORIES_FILE with
  | Json.obj fields => some (jsonGetD fields "categories" (Json.arr []))
  | _ => none

/-- The delete-category action (lines 432-440): when the selected
category is in the list, remove its first occurrence (Python
`list.remove`) and drop every product whose category equals it; the
resulting pair is saved to both stores and is what subsequent reads
observe.  When the selection is absent an error is shown and nothing
changes. -/
def delete_category (selected_category : String) (categories : List String)
    (data : Catalog) : List String × Catalog :=
  if selected_category ∈ categories then
    (categories.erase selected_category,
     data.filter (fun kv => kv.2.category != selected_category))
  else
    (categories, data)

/-- Python dict assignment `data[k] = v`: replace the value in place
when the key exists (keeping its position), otherwise append. -/
def dictInsert (data : Catalog) (k : String) (v : Product) : Catalog :=
  if data.any (fun kv => kv.1 == k) then
    data.map (fun kv => if kv.1 == k then (k, v) else kv)
  else
    data ++ [(k, v)]

/-- The add-product action (lines 287-298): the write happens only when
the name is non-empty (Python truthiness), a real category is selected,
and all three prices are strictly positive; otherwise an error is shown
and the catalog is left unchanged.  The boolean records whether the
write happened. -/
def add_product (data : Catalog) (product_name category : String)
    (purchase_price dealer_price selling_price : Int) : Catalog × Bool :=
  if product_name ≠ "" ∧ category ≠ "Select a Category" ∧
      0 < purchase_price ∧ 0 < selling_price ∧ 0 < dealer_price then
    (dictInsert data product_name
      ⟨category, purchase_price, dealer_price, selling_price⟩, true)
  else
    (data, false)

/-- A detail record as the CSV code sees it: a dict from field names to
already-stringified cell values (Python's `csv.writer` stringifies every
value it writes). -/
abbrev Details := List (String × String)

/-- Python `details.get(col, default)` on a detail record. -/
def detailsGetD (details : Details) (key dflt : String) : String :=
  match details.find? (fun kv => kv.1 == key) with
  | some kv => kv.2
  | none => dflt

/-- `generate_csv` (lines 30-44): `None` on empty data, otherwise the
header row of selected columns followed by one row per product, each
cell being `details.get(col, product if col == "Product Name" else "")`.
The rows of the written file are embedded as lists of cell strings. -/
def generate_csv (data : List (String × Details))
    (selected_columns : List String) : Option (List (List String)) :=
  if data.isEmpty then
    none
  else
    some (selected_columns ::
      data.map (fun pd =>
        selected_columns.map (fun col =>
          detailsGetD pd.2 col (if col == "Product Name" then pd.1 else ""))))

/-- The detail dict of a stored product, in the field order the add and
update flows write (lines 289-294 and 317-322). -/
def product_details (p : Product) : Details :=
  [("category", p.category),
   ("purchase_price", toString p.purchase_price),
   ("dealer_price", toString p.dealer_price),
   ("selling_price", toString p.selling_price)]

/-- The catalog as the CSV code sees it: each product rendered to its
detail dict. -/
def csv_source (data : Catalog) : List (String × Details) :=
  data.map (fun kv => (kv.1, product_details kv.2))

/-- The admin column choices (lines 217-218): `"Product Name"` followed
by the field names of the first product of the full catalog. -/
def all_columns_admin (data : List (String × Details)) : Option (List String) :=
  data.head?.map (fun kv => "Product Name" :: kv.2.map (fun f => f.1))

/-- The non-admin column choices (lines 253-257): as for the admin but
with `"purchase_price"` filtered out. -/
def all_columns_user (data : List (String × Details)) : Option (List String) :=
  data.head?.map (fun kv =>
    "Product Name" :: (kv.2.map (fun f => f.1)).filter
      (fun col => col != "purchase_price"))

/-- A one-product catalog, the spec's worked example. -/
def exCatalog : Catalog := [("Red Pen", ⟨"Stationery", 5, 6, 8⟩)]

/-- A concrete stand-in similarity function for the worked example. -/
def exScore : String → String → ℚ := fun _ n => if n == "Red Pen" then 90 else 0

-- Sanity examples: the lookup engine on the spec's worked example.

example : lookup exScore "stationery" exCatalog
    = .CategoryMatch "STATIONERY" [("Red Pen", 5, 8)] := by decide

example : lookup exScore "red pne" exCatalog
    = .SingleMatch "Red Pen" 90 5 8 := by decide

example : lookup (fun _ _ => 0) "xyz123" exCatalog = .NoMatch := by decide

end InventorySystem

namespace InventorySystem

/-! Helper lemmas about the sorting pass, the candidate list and the
dict operations. -/

theorem insertDesc_perm (x : String × ℚ) (l : List (String × ℚ)) :
    List.Perm (insertDesc x l) (x :: l) := by
  induction l with
  | nil => simp [insertDesc]
  | cons y ys ih =>
    by_cases h : y.2 ≤ x.2
    · simp [insertDesc, h]
    · simp only [insertDesc, if_neg h]
      exact (ih.cons y).trans (List.Perm.swap x y ys)

theorem sortDesc_perm (l : List (String × ℚ)) : List.Perm (sortDesc l) l := by
  induction l with
  | nil => simp [sortDesc]
  | cons x xs ih => exact (insertDesc_perm x (sortDesc xs)).trans (ih.cons x)

theorem sortDesc_eq_nil_iff (l : List (String × ℚ)) :
    sortDesc l = [] ↔ l = [] := by
  constructor
  · intro h
    have hlen := (sortDesc_perm l).symm.length_eq
    rw [h, List.length_nil] at hlen
    exact List.eq_nil_of_length_eq_zero hlen
  · intro h; rw [h]; rfl

theorem head?_insertDesc (x : String × ℚ) (l : List (String × ℚ)) :
    (insertDesc x l).head? =
      some (match l.head? with
            | none => x
            | some y => if y.2 ≤ x.2 then x else y) := by
  cases l with
  | nil => rfl
  | cons y ys =>
    by_cases h : y.2 ≤ x.2 <;> simp [insertDesc, h]

theorem sortDesc_head?_eq_firstMax (l : List (String × ℚ)) :
    (sortDesc l).head? = firstMax l := by
  induction l with
  | nil => rfl
  | cons x xs ih =>
    rw [sortDesc, head?_insertDesc, firstMax, ← ih]
    cases hm : (sortDesc xs).head? with
    | none => rfl
    | some y =>
      by_cases h : y.2 ≤ x.2
      · simp [h, not_lt.mpr h]
      · simp [h, lt_of_not_le h]

theorem firstMax_ne_none (x : String × ℚ) (xs : List (String × ℚ)) :
    firstMax (x :: xs) ≠ none := by
  rw [firstMax]
  cases firstMax xs with
  | none => simp
  | some y => by_cases h : x.2 < y.2 <;> simp [h]

theorem firstMax_eq_none_iff (l : List (String × ℚ)) :
    firstMax l = none ↔ l = [] := by
  cases l with
  | nil => simp [firstMax]
  | cons x xs => simp [firstMax_ne_none x xs]

theorem firstMax_le (l : List (String × ℚ)) (m : String × ℚ)
    (hm : firstMax l = some m) : ∀ x ∈ l, x.2 ≤ m.2 := by
  induction l generalizing m with
  | nil => simp [firstMax] at hm
  | cons x xs ih =>
    rw [firstMax] at hm
    split at hm
    · next hy =>
      obtain rfl : x = m := Option.some_inj.mp hm
      have hxs : xs = [] := (firstMax_eq_none_iff xs).mp hy
      subst hxs
      intro z hz
      rw [List.mem_singleton.mp hz]
    · next y hy =>
      intro z hz
      rcases List.mem_cons.mp hz with rfl | hzxs
      · by_cases h : z.2 < y.2
        · rw [if_pos h] at hm
          obtain rfl : y = m := Option.some_inj.mp hm
          exact le_of_lt h
        · rw [if_neg h] at hm
          obtain rfl : z = m := Option.some_inj.mp hm
          exact le_refl _
      · by_cases h : x.2 < y.2
        · rw [if_pos h] at hm
          obtain rfl : y = m := Option.some_inj.mp hm
          exact ih y hy z hzxs
        · rw [if_neg h] at hm
          obtain rfl : x = m := Option.some_inj.mp hm
          exact le_trans (ih y hy z hzxs) (not_lt.mp h)

theorem firstMax_find? (l : List (String × ℚ)) (m : String × ℚ)
    (hm : firstMax l = some m) :
    l.find? (fun x => decide (m.2 ≤ x.2)) = some m := by
  induction l generalizing m with
  | nil => simp [firstMax] at hm
  | cons x xs ih =>
    rw [firstMax] at hm
    split at hm
    · next hy =>
      obtain rfl : x = m := Option.some_inj.mp hm
      rw [List.find?_cons_of_pos _ (by simp)]
    · next y hy =>
      by_cases h : x.2 < y.2
      · rw [if_pos h] at hm
        obtain rfl : y = m := Option.some_inj.mp hm
        rw [List.find?_cons_of_neg _ (by simpa using not_le.mpr h)]
        exact ih y hy
      · rw [if_neg h] at hm
        obtain rfl : x = m := Option.some_inj.mp hm
        rw [List.find?_cons_of_pos _ (by simp)]

theorem dictGet_of_mem_keys (data : Catalog) (k : String)
    (h : k ∈ data.map Prod.fst) : ∃ p, dictGet data k = some p := by
  induction data with
  | nil => simp at h
  | cons kv rest ih =>
    by_cases hk : kv.1 = k
    · exact ⟨kv.2, by simp [dictGet, List.find?_cons_of_pos, hk]⟩
    · have hmem : k ∈ rest.map Prod.fst := by
        rcases List.mem_map.mp h with ⟨x, hx, hxk⟩
        rcases List.mem_cons.mp hx with rfl | hxr
        · exact absurd hxk hk
        · exact List.mem_map.mpr ⟨x, hxr, hxk⟩
      rcases ih hmem with ⟨p, hp⟩
      refine ⟨p, ?_⟩
      rw [dictGet, List.find?_cons_of_neg _ (by simpa using hk)]
      exact hp

theorem lower_eq_empty_iff (s : String) : lower s = "" ↔ s = "" := by
  constructor
  · intro h
    have hdata : s.data.map Char.toLower = [] := congrArg String.data h
    have : s.data = [] := List.map_eq_nil_iff.mp hdata
    cases s
    simp_all
  · intro h; rw [h]; rfl

theorem mem_fuzzyMatches (score : String → String → ℚ) (q : String)
    (data : Catalog) (x : String × ℚ) :
    x ∈ fuzzyMatches score q data ↔
      (∃ kv ∈ data, kv.1 = x.1 ∧ score q kv.1 = x.2) ∧ 50 ≤ x.2 := by
  rw [fuzzyMatches, List.mem_filter, List.mem_map]
  constructor
  · rintro ⟨⟨kv, hkv, hx⟩, hge⟩
    exact ⟨⟨kv, hkv, by rw [← hx], by rw [← hx]⟩, by simpa using hge⟩
  · rintro ⟨⟨kv, hkv, h1, h2⟩, hge⟩
    exact ⟨⟨kv, hkv, by rw [h2, h1]⟩, by simpa using hge⟩

theorem fuzzyMatches_ne_nil_iff (score : String → String → ℚ) (q : String)
    (data : Catalog) :
    fuzzyMatches score q data ≠ [] ↔ ∃ kv ∈ data, 50 ≤ score q kv.1 := by
  constructor
  · intro h
    rcases List.exists_mem_of_ne_nil _ h with ⟨x, hx⟩
    rcases (mem_fuzzyMatches score q data x).mp hx with ⟨⟨kv, hkv, h1, h2⟩, hge⟩
    exact ⟨kv, hkv, by rw [h2]; exact hge⟩
  · rintro ⟨kv, hkv, hge⟩ hnil
    have : (kv.1, score q kv.1) ∈ fuzzyMatches score q data :=
      (mem_fuzzyMatches score q data _).mpr ⟨⟨kv, hkv, rfl, rfl⟩, hge⟩
    rw [hnil] at this
    simp at this

theorem lookup_of_no_category (score : String → String → ℚ) (q : String)
    (data : Catalog) (h : ∀ kv ∈ data, lower kv.2.category ≠ lower q) :
    lookup score q data =
      match sortDesc (fuzzyMatches score q data) with
      | [] => .NoMatch
      | (best_match, s) :: _ =>
        match dictGet data best_match with
        | some product =>
            .SingleMatch best_match s.floor
              product.purchase_price product.selling_price
        | none => .NoMatch := by
  have hfil : data.filter (fun kv => lower kv.2.category == lower q) = [] := by
    rw [List.filter_eq_nil_iff]
    intro kv hkv
    simpa using h kv hkv
  simp only [lookup, hfil, List.isEmpty_nil, if_true]

theorem lookup_of_category (score : String → String → ℚ) (q : String)
    (data : Catalog) (h : ∃ kv ∈ data, lower kv.2.category = lower q) :
    lookup score q data =
      .CategoryMatch (upper q)
        ((data.filter (fun kv => lower kv.2.category == lower q)).map
          (fun kv => (kv.1, kv.2.purchase_price, kv.2.selling_price))) := by
  rcases h with ⟨kv, hkv, he⟩
  have hmem : kv ∈ data.filter (fun kv => lower kv.2.category == lower q) :=
    List.mem_filter.mpr ⟨hkv, by simp [he]⟩
  have hne : data.filter (fun kv => lower kv.2.category == lower q) ≠ [] :=
    List.ne_nil_of_mem hmem
  have hemp : (data.filter (fun kv => lower kv.2.category == lower q)).isEmpty
      = false := by
    cases hE : (data.filter (fun kv => lower kv.2.category == lower q)).isEmpty
    · rfl
    · exact absurd (List.isEmpty_iff.mp hE) hne
  simp only [lookup, hemp, Bool.false_eq_true, if_false]

theorem lower_empty : lower "" = "" := rfl

theorem upper_empty : upper "" = "" := rfl

theorem dictGet_cons (kv : String × Product) (rest : Catalog) (k : String) :
    dictGet (kv :: rest) k
      = if kv.1 == k then some kv.2 else dictGet rest k := by
  by_cases h : kv.1 == k
  · simp [dictGet, List.find?, h]
  · simp [dictGet, List.find?, h]

theorem dictGet_dictInsert (k : String) (v : Product) (data : Catalog) :
    dictGet (dictInsert data k v) k = some v := by
  induction data with
  | nil =>
    rw [dictInsert]
    simp [dictGet]
  | cons kv rest ih =>
    rw [dictInsert]
    by_cases hk : kv.1 == k
    · rw [if_pos (by simp [List.any_cons, hk])]
      rw [List.map_cons, if_pos hk, dictGet_cons]
      simp
    · by_cases hr : rest.any (fun kv => kv.1 == k)
      · rw [if_pos (by simp only [List.any_cons, hr, Bool.or_true])]
        rw [List.map_cons, if_neg hk, dictGet_cons, if_neg hk]
        have h' := ih
        rw [dictInsert, if_pos hr] at h'
        exact h'
      · rw [if_neg (by simp [List.any_cons, hk, hr])]
        rw [List.cons_append, dictGet_cons, if_neg hk]
        have h' := ih
        rw [dictInsert, if_neg (by simpa using hr)] at h'
        exact h'

/-- C1: for every catalog and every query, if at least one product's
category field lowercased equals the query lowercased, `lookup` returns
a `CategoryMatch` containing exactly the products whose lowercased
category equals the lowercased query (as name/purchase/selling triples,
preserving catalog order, with the query re-cased to upper case), and
the fuzzy name pass is never reached (the result is never a
`SingleMatch` or `NoMatch`). -/
theorem C1_category_pass (score : String → String → ℚ) (q : String)
    (data : Catalog) (h : ∃ kv ∈ data, lower kv.2.category = lower q) :
    lookup score q data =
      .CategoryMatch (upper q)
        ((data.filter (fun kv => lower kv.2.category == lower q)).map
          (fun kv => (kv.1, kv.2.purchase_price, kv.2.selling_price))) ∧
    (∀ n s pp sp, lookup score q data ≠ .SingleMatch n s pp sp) ∧
    lookup score q data ≠ .NoMatch := by
  refine ⟨lookup_of_category score q data h, ?_, ?_⟩
  · intro n s pp sp hcontra
    rw [lookup_of_category score q data h] at hcontra
    exact LookupResult.noConfusion hcontra
  · intro hcontra
    rw [lookup_of_category score q data h] at hcontra
    exact LookupResult.noConfusion hcontra

/-- Witness for C1 on the spec's worked example. -/
theorem C1_category_pass_witness :
    lookup exScore "stationery" exCatalog =
      .CategoryMatch (upper "stationery")
        ((exCatalog.filter (fun kv =>
            lower kv.2.category == lower "stationery")).map
          (fun kv => (kv.1, kv.2.purchase_price, kv.2.selling_price))) ∧
    (∀ n s pp sp,
      lookup exScore "stationery" exCatalog ≠ .SingleMatch n s pp sp) ∧
    lookup exScore "stationery" exCatalog ≠ .NoMatch :=
  C1_category_pass exScore "stationery" exCatalog (by decide)

/-- C2: for every catalog and query with no category match, `lookup`
returns a `SingleMatch` iff at least one product name scores at least 50
against the query, and returns `NoMatch` when no product name reaches
50. -/
theorem C2_fuzzy_iff (score : String → String → ℚ) (q : String)
    (data : Catalog) (h : ∀ kv ∈ data, lower kv.2.category ≠ lower q) :
    ((∃ kv ∈ data, 50 ≤ score q kv.1) ↔
      ∃ n s pp sp, lookup score q data = .SingleMatch n s pp sp) ∧
    ((∀ kv ∈ data, score q kv.1 < 50) → lookup score q data = .NoMatch) := by
  have hlook := lookup_of_no_category score q data h
  have hnilcase : (∀ kv ∈ data, score q kv.1 < 50) →
      lookup score q data = .NoMatch := by
    intro hall
    have hnil : fuzzyMatches score q data = [] := by
      by_contra hne
      rcases (fuzzyMatches_ne_nil_iff score q data).mp hne with ⟨kv, hkv, hge⟩
      exact absurd hge (not_le.mpr (hall kv hkv))
    rw [hlook, (sortDesc_eq_nil_iff _).mpr hnil]
  refine ⟨⟨?_, ?_⟩, hnilcase⟩
  · rintro ⟨kv, hkv, hge⟩
    have hne : fuzzyMatches score q data ≠ [] :=
      (fuzzyMatches_ne_nil_iff score q data).mpr ⟨kv, hkv, hge⟩
    have hsne : sortDesc (fuzzyMatches score q data) ≠ [] := fun hnil =>
      hne ((sortDesc_eq_nil_iff _).mp hnil)
    obtain ⟨⟨b, s₀⟩, rest, hsd⟩ := List.exists_cons_of_ne_nil hsne
    have hbmem : (b, s₀) ∈ fuzzyMatches score q data :=
      (sortDesc_perm _).subset (hsd ▸ List.mem_cons_self _ _)
    have hb : b ∈ data.map Prod.fst := by
      rcases (mem_fuzzyMatches score q data _).mp hbmem with ⟨⟨kv', hkv', h1, _⟩, _⟩
      exact List.mem_map.mpr ⟨kv', hkv', h1⟩
    rcases dictGet_of_mem_keys data b hb with ⟨p, hp⟩
    refine ⟨b, s₀.floor, p.purchase_price, p.selling_price, ?_⟩
    rw [hlook, hsd]
    show (match dictGet data b with
          | some product =>
              LookupResult.SingleMatch b s₀.floor
                product.purchase_price product.selling_price
          | none => LookupResult.NoMatch) = _
    rw [hp]
  · rintro ⟨n, s, pp, sp, hsm⟩
    by_contra hnot
    push_neg at hnot
    rw [hnilcase hnot] at hsm
    exact LookupResult.noConfusion hsm

/-- Witness for C2 on the spec's worked typo example. -/
theorem C2_fuzzy_iff_witness :
    ((∃ kv ∈ exCatalog, 50 ≤ exScore "red pne" kv.1) ↔
      ∃ n s pp sp, lookup exScore "red pne" exCatalog
        = .SingleMatch n s pp sp) ∧
    ((∀ kv ∈ exCatalog, exScore "red pne" kv.1 < 50) →
      lookup exScore "red pne" exCatalog = .NoMatch) :=
  C2_fuzzy_iff exScore "red pne" exCatalog (by decide)

/-- C3: when the fuzzy pass produces a `SingleMatch`, its score is the
maximum score among the candidates that reached 50, rounded down to an
integer, and the returned product is the first-encountered candidate at
the top score in catalog iteration order (the first element of the
candidate list whose score is maximal). -/
theorem C3_best_match (score : String → String → ℚ) (q : String)
    (data : Catalog) (n : String) (s pp sp : Int)
    (h : lookup score q data = .SingleMatch n s pp sp) :
    ∃ s₀ : ℚ, s = s₀.floor ∧
      (n, s₀) ∈ fuzzyMatches score q data ∧
      (∀ x ∈ fuzzyMatches score q data, x.2 ≤ s₀) ∧
      (fuzzyMatches score q data).find? (fun x => decide (s₀ ≤ x.2))
        = some (n, s₀) := by
  by_cases hcat : ∃ kv ∈ data, lower kv.2.category = lower q
  · rw [lookup_of_category score q data hcat] at h
    exact LookupResult.noConfusion h
  · push_neg at hcat
    rw [lookup_of_no_category score q data hcat] at h
    cases hsd : sortDesc (fuzzyMatches score q data) with
    | nil =>
      rw [hsd] at h
      exact LookupResult.noConfusion h
    | cons hd rest =>
      obtain ⟨b, s₀⟩ := hd
      rw [hsd] at h
      have h' : (match dictGet data b with
                 | some product =>
                     LookupResult.SingleMatch b s₀.floor
                       product.purchase_price product.selling_price
                 | none => LookupResult.NoMatch)
          = LookupResult.SingleMatch n s pp sp := h
      cases hp : dictGet data b with
      | none =>
        rw [hp] at h'
        exact LookupResult.noConfusion h'
      | some p =>
        rw [hp] at h'
        injection h' with h1 h2 h3 h4
        have hfm : firstMax (fuzzyMatches score q data) = some (b, s₀) := by
          rw [← sortDesc_head?_eq_firstMax, hsd]
          rfl
        refine ⟨s₀, ?_, ?_, ?_, ?_⟩
        · rw [← h2]
        · rw [← h1]
          exact (sortDesc_perm _).subset (hsd ▸ List.mem_cons_self _ _)
        · exact firstMax_le _ _ hfm
        · rw [← h1]
          exact firstMax_find? _ _ hfm

/-- Witness for C3: a two-product catalog where the second product wins
with score 80. -/
theorem C3_best_match_witness :
    ∃ s₀ : ℚ, (80 : Int) = s₀.floor ∧
      ("Blue Pen", s₀) ∈ fuzzyMatches
        (fun _ n => if n == "Blue Pen" then 80 else 60) "pen"
        [("Red Pen", ⟨"Stationery", 5, 6, 8⟩),
         ("Blue Pen", ⟨"Stationery", 4, 6, 9⟩)] ∧
      (∀ x ∈ fuzzyMatches
          (fun _ n => if n == "Blue Pen" then 80 else 60) "pen"
          [("Red Pen", ⟨"Stationery", 5, 6, 8⟩),
           ("Blue Pen", ⟨"Stationery", 4, 6, 9⟩)], x.2 ≤ s₀) ∧
      (fuzzyMatches (fun _ n => if n == "Blue Pen" then 80 else 60) "pen"
          [("Red Pen", ⟨"Stationery", 5, 6, 8⟩),
           ("Blue Pen", ⟨"Stationery", 4, 6, 9⟩)]).find?
        (fun x => decide (s₀ ≤ x.2)) = some ("Blue Pen", s₀) :=
  C3_best_match (fun _ n => if n == "Blue Pen" then 80 else 60) "pen"
    [("Red Pen", ⟨"Stationery", 5, 6, 8⟩),
     ("Blue Pen", ⟨"Stationery", 4, 6, 9⟩)]
    "Blue Pen" 80 4 9 (by decide)

/-- C4: the lookup engine signals no error.  On an empty catalog it
returns `NoMatch` for every query; on an empty query (the UI strips
whitespace before lookup) it returns `NoMatch` when no product has an
empty category field, and when some product's category field is empty
the category pass matches exactly those products.  The hypothesis on
`score` records that the token-set similarity of an empty query against
any name is below the threshold (rapidfuzz scores an empty string as
0). -/
theorem C4_no_error (score : String → String → ℚ) (q : String)
    (data : Catalog) (hs : ∀ n, score "" n < 50) :
    lookup score q [] = .NoMatch ∧
    ((∀ kv ∈ data, kv.2.category ≠ "") → lookup score "" data = .NoMatch) ∧
    ((∃ kv ∈ data, kv.2.category = "") →
      lookup score "" data =
        .CategoryMatch ""
          ((data.filter (fun kv => lower kv.2.category == "")).map
            (fun kv => (kv.1, kv.2.purchase_price, kv.2.selling_price)))) := by
  refine ⟨rfl, ?_, ?_⟩
  · intro hne
    have hcat : ∀ kv ∈ data, lower kv.2.category ≠ lower "" := by
      intro kv hkv hlow
      rw [lower_empty] at hlow
      exact hne kv hkv ((lower_eq_empty_iff _).mp hlow)
    have hnil : fuzzyMatches score "" data = [] := by
      by_contra hne'
      rcases (fuzzyMatches_ne_nil_iff score "" data).mp hne' with ⟨kv, hkv, hge⟩
      exact absurd hge (not_le.mpr (hs kv.1))
    rw [lookup_of_no_category score "" data hcat,
      (sortDesc_eq_nil_iff _).mpr hnil]
  · rintro ⟨kv, hkv, hemp⟩
    have hcat : ∃ kv ∈ data, lower kv.2.category = lower "" := by
      refine ⟨kv, hkv, ?_⟩
      rw [hemp]
    rw [lookup_of_category score "" data hcat, upper_empty, lower_empty]

/-- Witness for C4 with the constant-zero score function. -/
theorem C4_no_error_witness :
    lookup (fun _ _ => (0 : ℚ)) "anything" [] = .NoMatch ∧
    ((∀ kv ∈ exCatalog, kv.2.category ≠ "") →
      lookup (fun _ _ => (0 : ℚ)) "" exCatalog = .NoMatch) ∧
    ((∃ kv ∈ exCatalog, kv.2.category = "") →
      lookup (fun _ _ => (0 : ℚ)) "" exCatalog =
        .CategoryMatch ""
          ((exCatalog.filter (fun kv => lower kv.2.category == "")).map
            (fun kv => (kv.1, kv.2.purchase_price, kv.2.selling_price)))) :=
  C4_no_error (fun _ _ => (0 : ℚ)) "anything" exCatalog
    (fun _ => by norm_num)

/-- C5: `load_data` returns the empty dict when the backing file is
missing or its contents fail to parse, returns the parsed value of a
well-formed file, and never signals an error; consequently the category
store read yields the empty list when the backing file is missing or
corrupt. -/
theorem C5_load_data_tolerant (parse : String → Option Json)
    (fs : String → Option String) (file_path contents : String) (j : Json) :
    (fs file_path = none → load_data parse fs file_path = Json.obj []) ∧
    (fs file_path = some contents → parse contents = none →
      load_data parse fs file_path = Json.obj []) ∧
    (fs file_path = some contents → parse contents = some j →
      load_data parse fs file_path = j) ∧
    (fs CATEGORIES_FILE = none →
      load_categories parse fs = some (Json.arr [])) ∧
    (fs CATEGORIES_FILE = some contents → parse contents = none →
      load_categories parse fs = some (Json.arr [])) := by
  refine ⟨?_, ?_, ?_, ?_, ?_⟩
  · intro h
    simp [load_data, h]
  · intro h hp
    simp [load_data, h, hp]
  · intro h hp
    simp [load_data, h, hp]
  · intro h
    simp [load_categories, load_data, h, jsonGetD]
  · intro h hp
    simp [load_categories, load_data, h, hp, jsonGetD]

/-- Witness for C5: a missing file, a corrupt file, and a well-formed
file each at a concrete path. -/
theorem C5_load_data_tolerant_witness :
    load_data (fun _ => none) (fun _ => none) "product_prices.json"
      = Json.obj [] ∧
    load_data (fun _ => none) (fun _ => some "not json")
      "product_prices.json" = Json.obj [] ∧
    load_data (fun _ => some (Json.num 7)) (fun _ => some "7")
      "product_prices.json" = Json.num 7 ∧
    load_categories (fun _ => none) (fun _ => none)
      = some (Json.arr []) :=
  ⟨(C5_load_data_tolerant (fun _ => none) (fun _ => none)
      "product_prices.json" "" Json.null).1 rfl,
   (C5_load_data_tolerant (fun _ => none) (fun _ => some "not json")
      "product_prices.json" "not json" Json.null).2.1 rfl rfl,
   (C5_load_data_tolerant (fun _ => some (Json.num 7)) (fun _ => some "7")
      "product_prices.json" "7" (Json.num 7)).2.2.1 rfl rfl,
   (C5_load_data_tolerant (fun _ => none) (fun _ => none)
      CATEGORIES_FILE "" Json.null).2.2.2.1 rfl⟩

/-- C6 counterexample: with the category list `["A", "A"]` (which the
claim's universal quantification over category lists admits), deleting
`"A"` removes only the first occurrence — Python's `list.remove` — so
`"A"` is still in the resulting category list, contradicting the claim
that the deleted category is removed from the list. -/
theorem C6_delete_category_cex :
    "A" ∈ (delete_category "A" ["A", "A"] []).1 := by decide

/-- C6 amended: for every catalog and every duplicate-free category list
(the add-category flow never creates duplicates), deleting a selected
category removes it from the category list and removes from the catalog
exactly the products whose category field equals it, leaving every other
product unchanged; the returned pair is saved to both stores and is what
subsequent reads observe. -/
theorem C6_delete_category_cascade (sel : String) (cats : List String)
    (data : Catalog) (hnd : cats.Nodup) (hmem : sel ∈ cats) :
    sel ∉ (delete_category sel cats data).1 ∧
    (∀ c ∈ cats, c ≠ sel → c ∈ (delete_category sel cats data).1) ∧
    (∀ c ∈ (delete_category sel cats data).1, c ∈ cats ∧ c ≠ sel) ∧
    (delete_category sel cats data).2
      = data.filter (fun kv => kv.2.category != sel) ∧
    (∀ kv ∈ data, kv.2.category ≠ sel →
      kv ∈ (delete_category sel cats data).2) ∧
    (∀ kv ∈ (delete_category sel cats data).2,
      kv ∈ data ∧ kv.2.category ≠ sel) := by
  have hd : delete_category sel cats data
      = (cats.erase sel, data.filter (fun kv => kv.2.category != sel)) := by
    rw [delete_category, if_pos hmem]
  rw [hd]
  refine ⟨?_, ?_, ?_, rfl, ?_, ?_⟩
  · intro hcontra
    exact absurd ((hnd.mem_erase_iff).mp hcontra).1 (not_not.mpr rfl)
  · intro c hc hne
    exact (List.mem_erase_of_ne hne).mpr hc
  · intro c hc
    exact ⟨List.mem_of_mem_erase hc, ((hnd.mem_erase_iff).mp hc).1⟩
  · intro kv hkv hne
    exact List.mem_filter.mpr ⟨hkv, by simpa using hne⟩
  · intro kv hkv
    have := List.mem_filter.mp hkv
    exact ⟨this.1, by simpa using this.2⟩

/-- Witness for C6 on a concrete two-category store. -/
theorem C6_delete_category_cascade_witness :
    "A" ∉ (delete_category "A" ["A", "B"]
      [("x", ⟨"A", 1, 1, 1⟩), ("y", ⟨"B", 2, 2, 2⟩)]).1 ∧
    (∀ c ∈ ["A", "B"], c ≠ "A" → c ∈ (delete_category "A" ["A", "B"]
      [("x", ⟨"A", 1, 1, 1⟩), ("y", ⟨"B", 2, 2, 2⟩)]).1) ∧
    (∀ c ∈ (delete_category "A" ["A", "B"]
      [("x", ⟨"A", 1, 1, 1⟩), ("y", ⟨"B", 2, 2, 2⟩)]).1,
      c ∈ ["A", "B"] ∧ c ≠ "A") ∧
    (delete_category "A" ["A", "B"]
      [("x", ⟨"A", 1, 1, 1⟩), ("y", ⟨"B", 2, 2, 2⟩)]).2
      = ([("x", ⟨"A", 1, 1, 1⟩), ("y", ⟨"B", 2, 2, 2⟩)] : Catalog).filter
          (fun kv => kv.2.category != "A") ∧
    (∀ kv ∈ ([("x", ⟨"A", 1, 1, 1⟩), ("y", ⟨"B", 2, 2, 2⟩)] : Catalog),
      kv.2.category ≠ "A" → kv ∈ (delete_category "A" ["A", "B"]
        [("x", ⟨"A", 1, 1, 1⟩), ("y", ⟨"B", 2, 2, 2⟩)]).2) ∧
    (∀ kv ∈ (delete_category "A" ["A", "B"]
        [("x", ⟨"A", 1, 1, 1⟩), ("y", ⟨"B", 2, 2, 2⟩)]).2,
      kv ∈ ([("x", ⟨"A", 1, 1, 1⟩), ("y", ⟨"B", 2, 2, 2⟩)] : Catalog) ∧
        kv.2.category ≠ "A") :=
  C6_delete_category_cascade "A" ["A", "B"]
    [("x", ⟨"A", 1, 1, 1⟩), ("y", ⟨"B", 2, 2, 2⟩)] (by decide) (by decide)

/-- C7: the add-product flow writes only when the name is non-empty, a
real category is selected, and all three prices are strictly positive;
otherwise it rejects and leaves the catalog unchanged; hence every
product written by the add flow carries three strictly positive
prices. -/
theorem C7_add_product_validation (data : Catalog) (n c : String)
    (p d s : Int) :
    ((n = "" ∨ c = "Select a Category" ∨ p ≤ 0 ∨ d ≤ 0 ∨ s ≤ 0) →
      add_product data n c p d s = (data, false)) ∧
    (∀ data', add_product data n c p d s = (data', true) →
      n ≠ "" ∧ c ≠ "Select a Category" ∧ 0 < p ∧ 0 < d ∧ 0 < s ∧
      data' = dictInsert data n ⟨c, p, d, s⟩ ∧
      dictGet data' n = some (⟨c, p, d, s⟩ : Product)) := by
  constructor
  · intro hbad
    have hnc : ¬(n ≠ "" ∧ c ≠ "Select a Category" ∧
        0 < p ∧ 0 < s ∧ 0 < d) := by
      rintro ⟨h1, h2, h3, h4, h5⟩
      rcases hbad with hb | hb | hb | hb | hb
      · exact h1 hb
      · exact h2 hb
      · exact absurd h3 (not_lt.mpr hb)
      · exact absurd h5 (not_lt.mpr hb)
      · exact absurd h4 (not_lt.mpr hb)
    rw [add_product, if_neg hnc]
  · intro data' h
    by_cases hc : n ≠ "" ∧ c ≠ "Select a Category" ∧ 0 < p ∧ 0 < s ∧ 0 < d
    · rw [add_product, if_pos hc] at h
      injection h with h1 h2
      refine ⟨hc.1, hc.2.1, hc.2.2.1, hc.2.2.2.2, hc.2.2.2.1, h1.symm, ?_⟩
      rw [← h1]
      exact dictGet_dictInsert n ⟨c, p, d, s⟩ data
    · rw [add_product, if_neg hc] at h
      injection h with h1 h2
      exact Bool.noConfusion h2

/-- Witness for C7: a rejected zero-price add and an accepted add. -/
theorem C7_add_product_validation_witness :
    add_product exCatalog "Pencil" "Stationery" 0 2 3
      = (exCatalog, false) ∧
    ("Pencil" ≠ "" ∧ "Stationery" ≠ "Select a Category" ∧
      (0 : Int) < 2 ∧ (0 : Int) < 3 ∧ (0 : Int) < 4 ∧
      ([("Red Pen", ⟨"Stationery", 5, 6, 8⟩),
        ("Pencil", ⟨"Stationery", 2, 3, 4⟩)] : Catalog)
        = dictInsert exCatalog "Pencil" ⟨"Stationery", 2, 3, 4⟩ ∧
      dictGet ([("Red Pen", ⟨"Stationery", 5, 6, 8⟩),
        ("Pencil", ⟨"Stationery", 2, 3, 4⟩)] : Catalog) "Pencil"
        = some (⟨"Stationery", 2, 3, 4⟩ : Product)) :=
  ⟨(C7_add_product_validation exCatalog "Pencil" "Stationery" 0 2 3).1
      (Or.inr (Or.inr (Or.inl le_rfl))),
   (C7_add_product_validation exCatalog "Pencil" "Stationery" 2 3 4).2
      [("Red Pen", ⟨"Stationery", 5, 6, 8⟩),
       ("Pencil", ⟨"Stationery", 2, 3, 4⟩)] (by decide)⟩

/-- C8: on a non-empty catalog, the CSV exporter emits the header row
equal to the selected column list followed by one row per product in
which the column `"Product Name"` resolves to the product's key and
every other column resolves to the product's field of that name, with
the empty string when the field is absent. -/
theorem C8_generate_csv_rows (data : Catalog) (cols : List String)
    (h : data ≠ []) :
    generate_csv (csv_source data) cols =
      some (cols ::
        (csv_source data).map (fun pd =>
          cols.map (fun col =>
            if col == "Product Name" then pd.1
            else detailsGetD pd.2 col ""))) := by
  have hne : (csv_source data).isEmpty = false := by
    cases data with
    | nil => exact absurd rfl h
    | cons kv rest => rfl
  simp only [generate_csv, hne, Bool.false_eq_true, if_false,
    Option.some.injEq, List.cons.injEq, true_and]
  apply List.map_congr_left
  intro pd hpd
  rcases List.mem_map.mp hpd with ⟨kv, hkv, rfl⟩
  apply List.map_congr_left
  intro col hcol
  by_cases hpn : col == "Product Name"
  · have hc : col = "Product Name" := by simpa using hpn
    subst hc
    rfl
  · rw [if_neg hpn, if_neg hpn]

/-- Witness for C8 on the worked example with an absent column. -/
theorem C8_generate_csv_rows_witness :
    generate_csv (csv_source exCatalog)
        ["Product Name", "selling_price", "bogus"] =
      some (["Product Name", "selling_price", "bogus"] ::
        (csv_source exCatalog).map (fun pd =>
          ["Product Name", "selling_price", "bogus"].map (fun col =>
            if col == "Product Name" then pd.1
            else detailsGetD pd.2 col ""))) :=
  C8_generate_csv_rows exCatalog ["Product Name", "selling_price", "bogus"]
    (by decide)

/-- C9: for every non-empty catalog the non-admin (User role) CSV path
offers exactly the columns without `purchase_price`, so any column
selection drawn from those options excludes `purchase_price` and the
generated CSV's header row (its first row) never contains it, while the
admin path offers all product fields including `purchase_price`. -/
theorem C9_user_csv_excludes_purchase_price (data : Catalog)
    (sel : List String) (fdata : List (String × Details))
    (csv : List (List String)) (h : data ≠ [])
    (hsel : ∀ col ∈ sel, col ∈ (all_columns_user (csv_source data)).getD [])
    (hcsv : generate_csv fdata sel = some csv) :
    all_columns_user (csv_source data)
      = some ["Product Name", "category", "dealer_price", "selling_price"] ∧
    "purchase_price" ∉ sel ∧
    csv.head? = some sel ∧
    all_columns_admin (csv_source data)
      = some ["Product Name", "category", "purchase_price",
              "dealer_price", "selling_price"] := by
  obtain ⟨kv, rest, rfl⟩ : ∃ kv rest, data = kv :: rest := by
    cases data with
    | nil => exact absurd rfl h
    | cons kv rest => exact ⟨kv, rest, rfl⟩
  have huser : all_columns_user (csv_source (kv :: rest))
      = some ["Product Name", "category", "dealer_price", "selling_price"] :=
    rfl
  refine ⟨huser, ?_, ?_, rfl⟩
  · intro hcontra
    have hmem := hsel _ hcontra
    rw [huser] at hmem
    exact absurd hmem (by decide)
  · have hfne : fdata.isEmpty = false := by
      cases hF : fdata.isEmpty
      · rfl
      · rw [generate_csv, hF] at hcsv
        exact Option.noConfusion hcsv
    rw [generate_csv, hfne] at hcsv
    simp only [Bool.false_eq_true, if_false, Option.some.injEq] at hcsv
    rw [← hcsv]
    rfl

/-- Witness for C9 on the worked example. -/
theorem C9_user_csv_excludes_purchase_price_witness :
    all_columns_user (csv_source exCatalog)
      = some ["Product Name", "category", "dealer_price", "selling_price"] ∧
    "purchase_price" ∉ ["Product Name", "selling_price"] ∧
    ([["Product Name", "selling_price"], ["Red Pen", "8"]] :
        List (List String)).head?
      = some ["Product Name", "selling_price"] ∧
    all_columns_admin (csv_source exCatalog)
      = some ["Product Name", "category", "purchase_price",
              "dealer_price", "selling_price"] :=
  C9_user_csv_excludes_purchase_price exCatalog
    ["Product Name", "selling_price"] (csv_source exCatalog)
    [["Product Name", "selling_price"], ["Red Pen", "8"]]
    (by decide) (by decide) (by decide)

/-- C10: adding a product whose name already exists (with valid inputs)
silently replaces the existing record in place rather than rejecting or
duplicating: the write succeeds, the catalog keeps its length, the key
now maps to the new record, and every entry under a different key is
unchanged. -/
theorem C10_add_existing_overwrites (data : Catalog) (n c : String)
    (p d s : Int) (old : Product) (hmem : (n, old) ∈ data)
    (hval : n ≠ "" ∧ c ≠ "Select a Category" ∧ 0 < p ∧ 0 < s ∧ 0 < d) :
    add_product data n c p d s
      = (data.map (fun kv =>
          if kv.1 == n then (n, ⟨c, p, d, s⟩) else kv), true) ∧
    (add_product data n c p d s).1.length = data.length ∧
    dictGet (add_product data n c p d s).1 n
      = some (⟨c, p, d, s⟩ : Product) ∧
    (∀ kv ∈ data, kv.1 ≠ n → kv ∈ (add_product data n c p d s).1) ∧
    (∀ kv ∈ (add_product data n c p d s).1, kv.1 ≠ n → kv ∈ data) := by
  have hany : data.any (fun kv => kv.1 == n) = true := by
    rw [List.any_eq_true]
    exact ⟨(n, old), hmem, by simp⟩
  have heq : add_product data n c p d s
      = (data.map (fun kv =>
          if kv.1 == n then (n, ⟨c, p, d, s⟩) else kv), true) := by
    rw [add_product, if_pos hval, dictInsert, if_pos hany]
  refine ⟨heq, ?_, ?_, ?_, ?_⟩
  · rw [heq]
    exact List.length_map data _
  · rw [add_product, if_pos hval]
    exact dictGet_dictInsert n ⟨c, p, d, s⟩ data
  · intro kv hkv hne
    rw [heq]
    exact List.mem_map.mpr ⟨kv, hkv, by rw [if_neg (by simpa using hne)]⟩
  · intro kv hkv hne
    rw [heq] at hkv
    rcases List.mem_map.mp hkv with ⟨kv', hkv', hf⟩
    by_cases hk : kv'.1 == n
    · rw [if_pos hk] at hf
      exact absurd (by rw [← hf]) hne
    · rw [if_neg hk] at hf
      rw [← hf]
      exact hkv'

/-- Witness for C10: re-adding "Red Pen" with new fields. -/
theorem C10_add_existing_overwrites_witness :
    add_product exCatalog "Red Pen" "Office" 1 2 3
      = (exCatalog.map (fun kv =>
          if kv.1 == "Red Pen" then ("Red Pen", ⟨"Office", 1, 2, 3⟩)
          else kv), true) ∧
    (add_product exCatalog "Red Pen" "Office" 1 2 3).1.length
      = exCatalog.length ∧
    dictGet (add_product exCatalog "Red Pen" "Office" 1 2 3).1 "Red Pen"
      = some (⟨"Office", 1, 2, 3⟩ : Product) ∧
    (∀ kv ∈ exCatalog, kv.1 ≠ "Red Pen" →
      kv ∈ (add_product exCatalog "Red Pen" "Office" 1 2 3).1) ∧
    (∀ kv ∈ (add_product exCatalog "Red Pen" "Office" 1 2 3).1,
      kv.1 ≠ "Red Pen" → kv ∈ exCatalog) :=
  C10_add_existing_overwrites exCatalog "Red Pen" "Office" 1 2 3
    ⟨"Stationery", 5, 6, 8⟩ (by decide) (by decide)

end InventorySystem
